import Mathlib

/-!
Verification development for a GCS filesystem layer (`gcsfs/core.py`).

The Python source is shallowly embedded: byte strings become `List Nat`,
path strings become `List Char`, network calls become explicit
`Except`-valued parameters (the response the server would give), and the
mutable object state (`GCSFileSystem.dirs`, `GCSFile.{buffer, offset,
cache, start, end, loc, ...}`) becomes explicit record-passing.  MD5 is
modelled abstractly: the running hash object is represented by the exact
byte stream fed to it (`md5fed`), and the provider's `md5Hash` field by
the byte stream of the object the provider stored; since MD5 together
with base64-encoding is treated as injective, digest equality is stream
equality in the model.
-/

/-! ## Python helpers: slicing with negative indices

`pyTake xs j` models the Python slice `xs[:j]` and `pyDrop xs i` models
`xs[i:]`, including the negative-index convention. -/

def pyTake (xs : List α) (j : Int) : List α :=
  if 0 ≤ j then xs.take j.toNat else xs.take (xs.length - (-j).toNat)

def pyDrop (xs : List α) (i : Int) : List α :=
  if 0 ≤ i then xs.drop i.toNat else xs.drop (xs.length - (-i).toNat)

/-- `sliceL xs a b` models the Python slice `xs[a:b]` for `0 ≤ a, b`
(out-of-range bounds clamp, as in Python). -/
def sliceL (xs : List α) (a b : Nat) : List α :=
  (xs.drop a).take (b - a)

/-! ## Error taxonomy

`validate_response` in the source maps failures to `FileNotFoundError`
(not found), `IOError` (forbidden), `ValueError` (bad request),
`HtmlError` (structured provider error) or `RuntimeError`; network-level
failures surface as `requests.RequestException` (transport). -/

inductive GErr where
  | notFound
  | forbidden
  | badRequest
  | provider
  | transport
  | runtime
  deriving Repr, DecidableEq

/-! ## C4: the retrying request layer (`GCSFileSystem._call`)

```python
for retry in range(self.retries):          # self.retries = 4
    try:
        time.sleep(2**retry - 1)
        r = meth(...)
        validate_response(r, path)
        break
    except (HtmlError, RequestException) as e:
        if retry == self.retries - 1:
            raise e
        if is_retriable(e):
            continue
        raise e
```

One attempt is modelled by an `Outcome`: either a successful parsed
result, or a failure together with its classification.  A failure that
the `except` clause does not catch at all (e.g. `FileNotFoundError`) is
a `failure` with `retriable := false`: both re-raise immediately.
`is_retriable` lives in `gcsfs/utils.py` (not part of the embedded
source), so the classification is carried on the outcome itself. -/

inductive Outcome (α ε : Type) where
  | success (v : α)
  | failure (e : ε) (retriable : Bool)
  deriving Repr, DecidableEq

/-- `retries` of `GCSFileSystem`. -/
def retriesConst : Nat := 4

/-- The loop body of `_call`, from attempt number `k`, with `rem` further
attempts allowed after this one (`rem = retriesConst - 1 - k` at the
top-level call, so `rem = 0` exactly when `retry == self.retries - 1`).
Returns the call result together with the list of sleeps performed, in
seconds, one before each attempt. -/
def callAux (att : Nat → Outcome α ε) (k : Nat) : Nat → Except ε α × List Nat
  | 0 =>
    (match att k with
     | .success v => .ok v
     | .failure e _ => .error e, [2 ^ k - 1])
  | rem + 1 =>
    match att k with
    | .success v => (.ok v, [2 ^ k - 1])
    | .failure e r =>
      if r then
        let p := callAux att (k + 1) rem
        (p.1, (2 ^ k - 1) :: p.2)
      else (.error e, [2 ^ k - 1])

/-- `GCSFileSystem._call`, with the per-attempt outcome supplied by `att`. -/
def callModel (att : Nat → Outcome α ε) : Except ε α × List Nat :=
  callAux att 0 (retriesConst - 1)

/-- An attempt that failed and was classified retriable. -/
def retriFail (o : Outcome α ε) : Prop :=
  ∃ e, o = .failure e true

/-- The expected backoff schedule for `n` attempts: `2^j - 1` seconds
before attempt `j`. -/
def backoffSleeps (n : Nat) : List Nat :=
  (List.range n).map (fun i => 2 ^ i - 1)

/-- C4.  `_call` makes at most 4 attempts, sleeping `2^j - 1` seconds
before attempt `j` (so attempt 0 is immediate, attempt 1 waits 1 s,
attempt 2 waits 3 s); a retriable failure moves on to the next attempt,
a non-retriable failure or the failure of the last attempt raises that
error, and a success within the budget yields the parsed result. -/
theorem claim4_retry_loop (att : Nat → Outcome α ε) :
    ((callModel att).2.length ≤ 4 ∧
      (callModel att).2 = backoffSleeps (callModel att).2.length) ∧
    (∀ k v, k < 4 → (∀ j, j < k → retriFail (att j)) → att k = .success v →
      callModel att = (.ok v, backoffSleeps (k + 1))) ∧
    (∀ k e, k < 3 → (∀ j, j < k → retriFail (att j)) → att k = .failure e false →
      callModel att = (.error e, backoffSleeps (k + 1))) ∧
    (∀ e r, (∀ j, j < 3 → retriFail (att j)) → att 3 = .failure e r →
      callModel att = (.error e, backoffSleeps 4)) := by
  have decomp : ∀ k rem, callAux att k (rem + 1) =
      match att k with
      | .success v => (.ok v, [2 ^ k - 1])
      | .failure e r =>
        if r then
          ((callAux att (k + 1) rem).1, (2 ^ k - 1) :: (callAux att (k + 1) rem).2)
        else (.error e, [2 ^ k - 1]) := by
    intro k rem
    rfl
  refine ⟨?_, ?_, ?_, ?_⟩
  · -- attempt budget and backoff schedule
    unfold callModel retriesConst
    norm_num
    rcases h0 : att 0 with v | ⟨e, r⟩
    · simp [decomp, h0, backoffSleeps]
      decide
    · rcases r with _ | _
      · simp [decomp, h0, backoffSleeps]
        decide
      · rcases h1 : att 1 with v | ⟨e1, r1⟩
        · simp [decomp, h0, h1, backoffSleeps]
          decide
        · rcases r1 with _ | _
          · simp [decomp, h0, h1, backoffSleeps]
            decide
          · rcases h2 : att 2 with v | ⟨e2, r2⟩
            · simp [decomp, h0, h1, h2, backoffSleeps]
              decide
            · rcases r2 with _ | _
              · simp [decomp, h0, h1, h2, backoffSleeps]
                decide
              · rcases h3 : att 3 with v | ⟨e3, r3⟩ <;>
                  simp [decomp, h0, h1, h2, h3, callAux, backoffSleeps] <;>
                  decide
  · -- success within the budget
    intro k v hk hpre hs
    unfold callModel retriesConst
    interval_cases k
    · simp [decomp, hs, backoffSleeps]
      decide
    · obtain ⟨e0, h0⟩ := hpre 0 (by omega)
      simp [decomp, h0, hs, backoffSleeps]
      decide
    · obtain ⟨e0, h0⟩ := hpre 0 (by omega)
      obtain ⟨e1, h1⟩ := hpre 1 (by omega)
      simp [decomp, h0, h1, hs, backoffSleeps]
      decide
    · obtain ⟨e0, h0⟩ := hpre 0 (by omega)
      obtain ⟨e1, h1⟩ := hpre 1 (by omega)
      obtain ⟨e2, h2⟩ := hpre 2 (by omega)
      simp [decomp, h0, h1, h2, hs, callAux, backoffSleeps]
      decide
  · -- a non-retriable failure before the last attempt raises at once
    intro k e hk hpre hf
    unfold callModel retriesConst
    interval_cases k
    · simp [decomp, hf, backoffSleeps]
      decide
    · obtain ⟨e0, h0⟩ := hpre 0 (by omega)
      simp [decomp, h0, hf, backoffSleeps]
      decide
    · obtain ⟨e0, h0⟩ := hpre 0 (by omega)
      obtain ⟨e1, h1⟩ := hpre 1 (by omega)
      simp [decomp, h0, h1, hf, backoffSleeps]
      decide
  · -- exhausting the budget raises the last attempt's error
    intro e r hpre hf
    obtain ⟨e0, h0⟩ := hpre 0 (by omega)
    obtain ⟨e1, h1⟩ := hpre 1 (by omega)
    obtain ⟨e2, h2⟩ := hpre 2 (by omega)
    unfold callModel retriesConst
    simp [decomp, h0, h1, h2, callAux, hf, backoffSleeps]
    decide

/-- An attempt function for the witness: the first two attempts fail
retriably, the third succeeds. -/
def attWitness : Nat → Outcome Nat GErr := fun k =>
  match k with
  | 0 => .failure .transport true
  | 1 => .failure .provider true
  | _ => .success 42

theorem claim4_retry_loop_witness :
    callModel attWitness = (.ok 42, [0, 1, 3]) := by
  have h := (claim4_retry_loop attWitness).2.1 2 42 (by omega)
    (by
      intro j hj
      interval_cases j
      · exact ⟨.transport, rfl⟩
      · exact ⟨.provider, rfl⟩)
    rfl
  simpa [backoffSleeps] using h

/-! ## C8: the device-code token polling loop (`GCSFileSystem.connect`)

```python
while True:
    time.sleep(1)
    r = requests.post("https://www.googleapis.com/oauth2/v4/token", params={...})
    data2 = json.loads(r.content.decode())
    if 'error' in data2:
        continue
    data = data2
    break
```

Each poll of the token endpoint yields either an error response (any
JSON body with an `error` key; the error code is carried for the
record) or a token.  The loop is modelled over the finite list of
responses the endpoint will give; `none` means the loop is still
polling when the list runs out.  The result carries the total number
of seconds slept (one second before every poll). -/

inductive PollResp where
  | perr (code : Nat)
  | ptok (tok : Nat)
  deriving Repr, DecidableEq

def pollLoop : List PollResp → Option (Nat × Nat)
  | [] => none
  | .perr _ :: rest => (pollLoop rest).map (fun p => (p.1, p.2 + 1))
  | .ptok t :: _ => some (t, 1)

/-- C8 counterexample.  The claim says a non-"pending" error response
from the token endpoint is propagated to the caller.  The code instead
executes `continue` on *any* response with an `error` key: polling the
sequence [error(code 17), token 7] — where 17 stands for a terminal
error such as `access_denied`, not a pending marker — returns the token
after two polls instead of propagating the error. -/
theorem claim8_poll_counterexample :
    pollLoop [.perr 17, .ptok 7] = some (7, 2) := by
  rfl

/-- C8 amended.  The loop sleeps 1 second before every poll and
continues on *every* error response, whatever its code; it returns the
first token response, and never propagates an error: if every response
is an error the loop just keeps polling. -/
theorem claim8_poll_amended (es rest : List PollResp) (t : Nat)
    (he : ∀ r ∈ es, ∃ c, r = .perr c) :
    pollLoop (es ++ .ptok t :: rest) = some (t, es.length + 1) ∧
    pollLoop es = none := by
  induction es with
  | nil => exact ⟨rfl, rfl⟩
  | cons r es ih =>
    obtain ⟨c, rfl⟩ := he r (by simp)
    have ⟨ih1, ih2⟩ := ih (fun r hr => he r (by simp [hr]))
    refine ⟨?_, ?_⟩
    · simp [pollLoop, ih1]
    · simp [pollLoop, ih2]

theorem claim8_poll_amended_witness :
    pollLoop ([.perr 3, .perr 17] ++ .ptok 9 :: []) = some (9, 3) ∧
    pollLoop [.perr 3, .perr 17] = none := by
  have h := claim8_poll_amended [.perr 3, .perr 17] [] 9
    (by
      intro r hr
      simp at hr
      rcases hr with h | h <;> exact ⟨_, by rw [h]⟩)
  simpa using h

/-! ## C7: `GCSFileSystem.exists`

```python
def exists(self, path):
    bucket, key = split_path(path)
    try:
        if key:
            return bool(self.info(path))
        else:
            if bucket in self.ls(''):
                return True
            else:
                try:
                    self._list_bucket(bucket)
                    return True
                except (FileNotFoundError, IOError, ValueError):
                    # bucket listing failed as it doesn't exist or we can't
                    # see it
                    return False
    except FileNotFoundError:
        return False
```

The probes are abstracted by their outcomes: `infoRes` is what
`self.info(path)` would do (return an entry, modelled `.ok ()` since a
returned metadata dict is non-empty hence truthy, or raise), and
`listBucketRes` what `self._list_bucket(bucket)` would do.  `ls('')`
never raises (`_list_buckets` swallows its errors), so the root bucket
list is a plain list of names. -/

def existsModel (bucket key : List Char) (infoRes : Except GErr Unit)
    (rootBuckets : List (List Char)) (listBucketRes : Except GErr Unit) :
    Except GErr Bool :=
  if key ≠ [] then
    match infoRes with
    | .ok _ => .ok true
    | .error .notFound => .ok false
    | .error e => .error e
  else
    if bucket ∈ rootBuckets then .ok true
    else
      match listBucketRes with
      | .ok _ => .ok true
      | .error .notFound => .ok false
      | .error .forbidden => .ok false
      | .error .badRequest => .ok false
      | .error e => .error e

/-- C7 counterexample.  The claim says every failure other than
not-found propagates.  For a bucket-only path (`key = ''`) whose bucket
is not in the root listing, an access-denied (`IOError`, "forbidden")
failure of the bucket-listing probe is swallowed and mapped to `False`
instead of propagating. -/
theorem claim7_exists_counterexample :
    existsModel ['b'] [] (.ok ()) [] (.error .forbidden) = .ok false ∧
    existsModel ['b'] [] (.ok ()) [] (.error .forbidden) ≠
      .error .forbidden := by
  exact ⟨rfl, fun h => Except.noConfusion h⟩

/-- C7 amended.  For paths with a key, `exists` suppresses exactly the
not-found failure of the metadata probe; for bucket-only paths it
additionally suppresses access-denied (`IOError`) and bad-request
(`ValueError`) failures of the bucket-listing probe; provider,
transport and opaque runtime errors always propagate. -/
theorem claim7_exists_amended (bucket key : List Char)
    (infoRes listRes : Except GErr Unit) (roots : List (List Char)) :
    (key ≠ [] → existsModel bucket key infoRes roots listRes =
      match infoRes with
      | .ok _ => .ok true
      | .error .notFound => .ok false
      | .error e => .error e) ∧
    (key = [] → bucket ∈ roots →
      existsModel bucket key infoRes roots listRes = .ok true) ∧
    (key = [] → bucket ∉ roots →
      ((listRes = .error .notFound ∨ listRes = .error .forbidden ∨
          listRes = .error .badRequest) →
        existsModel bucket key infoRes roots listRes = .ok false) ∧
      (∀ u, listRes = .ok u →
        existsModel bucket key infoRes roots listRes = .ok true) ∧
      ((listRes = .error .provider ∨ listRes = .error .transport ∨
          listRes = .error .runtime) →
        ∃ e, listRes = .error e ∧
          existsModel bucket key infoRes roots listRes = .error e)) := by
  refine ⟨?_, ?_, ?_⟩
  · intro hk
    simp [existsModel, hk]
  · intro hk hb
    simp [existsModel, hk, hb]
  · intro hk hb
    subst hk
    refine ⟨?_, ?_, ?_⟩
    · rintro (rfl | rfl | rfl) <;> simp [existsModel, hb]
    · rintro u rfl
      simp [existsModel, hb]
    · rintro (rfl | rfl | rfl) <;>
        exact ⟨_, rfl, by simp [existsModel, hb]⟩

theorem claim7_exists_amended_witness :
    (existsModel ['b'] ['k'] (.error .notFound) [] (.ok ()) = .ok false) ∧
    (existsModel ['b'] [] (.ok ()) [] (.error .transport) =
      .error .transport) := by
  constructor
  · exact (claim7_exists_amended ['b'] ['k'] (.error .notFound) (.ok ()) []).1
      (by decide)
  · have h := ((claim7_exists_amended ['b'] [] (.ok ()) (.error .transport)
      []).2.2 rfl (by decide)).2.2 (by simp)
    obtain ⟨e, he, hr⟩ := h
    have : e = GErr.transport := by
      cases he
      rfl
    rw [this] at hr
    exact hr

/-! ## The write-side upload engine (`GCSFile`, mode 'wb')

Fields of the Python object that the write path touches, as a record:
`buffer` is the `io.BytesIO` content (its read position always sits at
the end of the data at the points the code inspects `tell()`, so the
position is not modelled separately), `offset` the committed offset,
`md5fed` the byte stream fed so far to the running `md5` object,
`written` a specification ghost: the concatenation of every byte ever
passed to `write`.  `location` is the resumable-upload session URL
(`some ()` once `_initiate_upload` has run).  Provider responses to a
chunk POST are `ChunkResp`: a `Range` header acknowledging bytes
`0..last` (`rangeAck last`), or a completion body carrying `size` and
`md5Hash` (`done`); per the abstraction above, the `md5Hash` value is
represented by the byte stream of the object the provider stored. -/

inductive Consistency where
  | cnone
  | csize
  | cmd5
  deriving Repr, DecidableEq

inductive UErr where
  | notWriteMode
  | closedFile
  | forcedFile
  | doubleForce
  | assertPartial
  | assertComplete
  | sizeMismatch
  | md5Mismatch
  | badResponse
  deriving Repr, DecidableEq

structure FState where
  buffer : List Nat
  offset : Int
  md5fed : List Nat
  written : List Nat
  loc : Int
  blocksize : Nat
  policy : Consistency
  forced : Bool
  closed : Bool
  location : Option Unit
  deriving Repr, DecidableEq

inductive ChunkResp where
  | rangeAck (last : Int)
  | done (size : Int) (md5Hash : List Nat)
  deriving Repr, DecidableEq

/-- `GCSFile._upload_chunk(final)`:

```python
self.buffer.seek(0)
data = self.buffer.read()
l = self.buffer.tell()
... (Content-Range headers) ...
r = requests.post(self.location, ...)
validate_response(r, self.location)
if 'Range' in r.headers:
    assert not final, "Response looks like upload is partial"
    shortfall = (self.offset + l - 1) - int(r.headers['Range'].split('-')[1])
    if shortfall:
        if self.consistency == 'md5':
            self.md5.update(data[:-shortfall])
        self.buffer = io.BytesIO(data[-shortfall:])
        self.buffer.seek(shortfall)
    else:
        if self.consistency == 'md5':
            self.md5.update(data)
        self.buffer = io.BytesIO()
    self.offset += l - shortfall
else:
    assert final, "Response looks like upload is over"
    size, md5 = int(r.json()['size']), r.json()['md5Hash']
    if self.consistency == 'size':
        assert size == self.buffer.tell() + self.offset, "Size mismatch"
    if self.consistency == 'md5':
        assert b64encode(self.md5.digest()) == md5.encode(), "MD5 checksum failed"
    self.buffer = io.BytesIO()
    self.offset += l
```

(after `read()` the buffer position `tell()` equals `l`, the length of
`data`). -/
def uploadChunk (s : FState) (final : Bool) (resp : ChunkResp) :
    Except UErr FState :=
  let data := s.buffer
  let l : Int := data.length
  match resp with
  | .rangeAck last =>
    if final then .error .assertPartial
    else
      let shortfall : Int := (s.offset + l - 1) - last
      if shortfall ≠ 0 then
        .ok { s with
          md5fed := if s.policy = .cmd5 then s.md5fed ++ pyTake data (-shortfall)
                    else s.md5fed
          buffer := pyDrop data (-shortfall)
          offset := s.offset + l - shortfall }
      else
        .ok { s with
          md5fed := if s.policy = .cmd5 then s.md5fed ++ data else s.md5fed
          buffer := []
          offset := s.offset + l - shortfall }
  | .done size md5Hash =>
    if ¬ final then .error .assertComplete
    else if s.policy = .csize ∧ size ≠ l + s.offset then .error .sizeMismatch
    else if s.policy = .cmd5 ∧ s.md5fed ≠ md5Hash then .error .md5Mismatch
    else .ok { s with buffer := [], offset := s.offset + l }

/-- `GCSFile._simple_upload` (one-shot, ≤ 5 MB):

```python
self.buffer.seek(0)
data = self.buffer.read()
r = requests.post(path, params={'uploadType': 'media', 'name': self.key},
                  headers=head, data=data)
validate_response(r, path)
size, md5 = int(r.json()['size']), r.json()['md5Hash']
if self.consistency == 'size':
    assert size == self.buffer.tell(), "Size mismatch"
if self.consistency == 'md5':
    self.md5.update(data)
    assert b64encode(self.md5.digest()) == md5.encode(), "MD5 checksum failed"
```
-/
def simpleUpload (s : FState) (size : Int) (md5Hash : List Nat) :
    Except UErr FState :=
  let data := s.buffer
  let l : Int := data.length
  if s.policy = .csize ∧ size ≠ l then .error .sizeMismatch
  else if s.policy = .cmd5 then
    let fed := s.md5fed ++ data
    if fed ≠ md5Hash then .error .md5Mismatch
    else .ok { s with md5fed := fed }
  else .ok s

/-- `GCSFile.flush(force)`; `resp` is the provider's response to
whichever upload request the flush issues (unused when no request goes
out; a `rangeAck` answer to a simple upload is physically impossible and
maps to `badResponse`):

```python
if self.mode not in {'wb', 'ab'}:
    raise ValueError('Flush on a file not in write mode')
if self.closed:
    raise ValueError('Flush on closed file')
if self.buffer.tell() == 0 and not force:
    return
if force and self.forced:
    raise ValueError("Force flush cannot be called more than once")
if force and not self.offset and self.buffer.tell() <= 5 * 2**20:
    self._simple_upload()
elif not self.offset:
    self._initiate_upload()
if self.location is not None:
    self._upload_chunk(final=force)
if force:
    self.forced = True
```

(`FState` is a write-mode handle, so the mode guard passes;
`_initiate_upload` sets `self.location` from the session URL.) -/
def flushModel (s : FState) (force : Bool) (resp : ChunkResp) :
    Except UErr FState := do
  if s.closed then throw .closedFile
  else if s.buffer.length = 0 ∧ ¬ force then pure s
  else if force ∧ s.forced then throw .doubleForce
  else
    let s1 ←
      if force ∧ s.offset = 0 ∧ s.buffer.length ≤ 5 * 2 ^ 20 then
        match resp with
        | .done sz h => simpleUpload s sz h
        | .rangeAck _ => throw .badResponse
      else
        pure (if s.offset = 0 then { s with location := some () } else s)
    let s2 ←
      match s1.location with
      | some _ => uploadChunk s1 force resp
      | none => pure s1
    pure (if force then { s2 with forced := true } else s2)

/-- `GCSFile.write(data)`; `resp` answers the flush the write may
trigger when the buffer reaches the block size:

```python
if self.mode not in {'wb', 'ab'}:
    raise ValueError('File not in write mode')
if self.closed:
    raise ValueError('I/O operation on closed file.')
if self.forced:
    raise ValueError('This file has been force-flushed, can only close')
out = self.buffer.write(ensure_writable(data))
self.loc += out
if self.buffer.tell() >= self.blocksize:
    self.flush()
return out
```
-/
def writeModel (s : FState) (d : List Nat) (resp : ChunkResp) :
    Except UErr (Int × FState) := do
  if s.closed then throw .closedFile
  else if s.forced then throw .forcedFile
  else
    let out : Int := d.length
    let s1 := { s with
      buffer := s.buffer ++ d
      loc := s.loc + out
      written := s.written ++ d }
    if s1.buffer.length ≥ s1.blocksize then
      let s2 ← flushModel s1 false resp
      pure (out, s2)
    else
      pure (out, s1)

/-- Observable side effects of `GCSFile.close`, for the parts of the
surrounding system not represented in the handle state. -/
inductive CloseEffect where
  | releasedCache
  | flushedForce
  | invalidatedBucket
  deriving Repr, DecidableEq

/-- `GCSFile.close` for a write-mode handle:

```python
if self.closed:
    return
if self.mode == 'rb':
    self.cache = None
else:
    self.flush(force=True)
    self.gcsfs.invalidate_cache(self.bucket)
self.closed = True
```
-/
def closeWrite (s : FState) (resp : ChunkResp) :
    Except UErr (FState × List CloseEffect) := do
  if s.closed then pure (s, [])
  else
    let s1 ← flushModel s true resp
    pure ({ s1 with closed := true }, [.flushedForce, .invalidatedBucket])

/-! ## The read-side block cache (`GCSFile`, mode 'rb')

The remote object is `content` (so `self.size = content.length`, the
size recorded from the object's metadata).  The fields `self.start`,
`self.end`, `self.cache` — `None`/`None`/`b""` before the first fetch,
and set together by `_fetch` afterwards — are bundled as
`window : Option Window`.  `_fetch_range` performs a ranged HTTP GET
`bytes=a-(b-1)`: the server answers with the bytes of `content[a:b]`
(clamped at the object's end), and the code maps the literal
`b'Request range not satisfiable'` body (sent when `a` is at or past
the end) to `b''`, which the clamped slice also yields. -/

/-- The fixed 5 MiB fetch granularity of `_fetch`. -/
def fiveMB : Nat := 5 * 2 ^ 20

structure Window where
  start : Nat
  wend : Nat
  cache : List Nat
  deriving Repr, DecidableEq

structure RState where
  content : List Nat
  blocksize : Nat
  loc : Nat
  window : Option Window
  closed : Bool
  trim : Bool
  deriving Repr, DecidableEq

/-- `_fetch_range(header, details, a, b)`, as the server resolves it. -/
def fetchRange (content : List Nat) (a b : Nat) : List Nat :=
  sliceL content a b

/-- `if start < self.start:` branch of `_fetch`: prepend the missing
head of the window. -/
def growLeft (content : List Nat) (a5 : Nat) (w : Window) : Window :=
  if a5 < w.start then
    ⟨a5, w.wend, fetchRange content a5 w.start ++ w.cache⟩
  else w

/-- `if end > self.end:` branch of `_fetch`: append the missing tail,
padded by one extra block, unless the window already runs past the end
of the object. -/
def growRight (content : List Nat) (b5 bs : Nat) (w : Window) : Window :=
  if b5 > w.wend then
    if w.wend > content.length then w
    else ⟨w.start, b5 + bs, w.cache ++ fetchRange content w.wend (b5 + bs)⟩
  else w

/-- `GCSFile._fetch(start, end)`:

```python
start = start // (5 * 2**20) * 5 * 2**20
end = (end // (5 * 2 ** 20) + 1) * 5 * 2 ** 20
if self.start is None and self.end is None:
    # First read
    self.start = start
    self.end = end + self.blocksize
    self.cache = _fetch_range(..., start, self.end)
if start < self.start:
    new = _fetch_range(..., start, self.start)
    self.start = start
    self.cache = new + self.cache
if end > self.end:
    if self.end > self.size:
        return
    new = _fetch_range(..., self.end, end + self.blocksize)
    self.end = end + self.blocksize
    self.cache = self.cache + new
```
-/
def fetchWindow (s : RState) (a b : Nat) : Window :=
  growRight s.content ((b / fiveMB + 1) * fiveMB) s.blocksize
    (growLeft s.content (a / fiveMB * fiveMB)
      (match s.window with
       | none =>
         ⟨a / fiveMB * fiveMB, (b / fiveMB + 1) * fiveMB + s.blocksize,
           fetchRange s.content (a / fiveMB * fiveMB)
             ((b / fiveMB + 1) * fiveMB + s.blocksize)⟩
       | some w => w))

/-- `GCSFile.read(length)`:

```python
if self.mode != 'rb':
    raise ValueError('File not in read mode')
if length < 0:
    length = self.size
if self.closed:
    raise ValueError('I/O operation on closed file.')
self._fetch(self.loc, self.loc + length)
out = self.cache[self.loc - self.start:
                 self.loc - self.start + length]
self.loc += len(out)
if self.trim:
    num = (self.loc - self.start) // self.blocksize - 1
    if num > 0:
        self.start += self.blocksize * num
        self.cache = self.cache[self.blocksize * num:]
return out
```

`RState` is a read-mode handle, so the mode guard passes.  After
`_fetch`, `self.start ≤ self.loc` always holds (the fetch start is
`self.loc` rounded down), so the Python slice indices are non-negative
and natural subtraction is faithful.  When `self.blocksize` is zero the
`//` raises `ZeroDivisionError`, modelled as an opaque runtime error. -/
def readModel (s : RState) (length : Int) : Except GErr (List Nat × RState) :=
  let len : Nat := if length < 0 then s.content.length else length.toNat
  if s.closed then .error .badRequest
  else
    let w := fetchWindow s s.loc (s.loc + len)
    let out := (w.cache.drop (s.loc - w.start)).take len
    let loc2 := s.loc + out.length
    if s.trim then
      if s.blocksize = 0 then .error .runtime
      else
        let num : Int := ((loc2 - w.start) / s.blocksize : Nat) - 1
        if num > 0 then
          let w2 : Window :=
            { w with start := w.start + s.blocksize * num.toNat,
                     cache := w.cache.drop (s.blocksize * num.toNat) }
          .ok (out, { s with loc := loc2, window := some w2 })
        else .ok (out, { s with loc := loc2, window := some w })
    else .ok (out, { s with loc := loc2, window := some w })

/-- `GCSFile.seek(loc, whence)`:

```python
if not self.mode == 'rb':
    raise ValueError('Seek only available in read mode')
if whence == 0:
    nloc = loc
elif whence == 1:
    nloc = self.loc + loc
elif whence == 2:
    nloc = self.size + loc
else:
    raise ValueError("invalid whence (%s, should be 0, 1 or 2)" % whence)
if nloc < 0:
    raise ValueError('Seek before start of file')
self.loc = nloc
return self.loc
```
-/
def seekModel (s : RState) (off : Int) (whence : Nat) :
    Except GErr (Nat × RState) :=
  if whence > 2 then .error .badRequest
  else
    let nloc : Int :=
      if whence = 0 then off
      else if whence = 1 then (s.loc : Int) + off
      else (s.content.length : Int) + off
    if nloc < 0 then .error .badRequest
    else .ok (nloc.toNat, { s with loc := nloc.toNat })

/-- `GCSFile.close` for a read-mode handle (`self.cache = None`; the
bundled window drops `start`/`end` together with the cache, which the
`closed` flag makes unobservable). -/
def closeRead (s : RState) : RState × List CloseEffect :=
  if s.closed then (s, [])
  else ({ s with window := none, closed := true }, [.releasedCache])

/-- The read-window invariant: the cached bytes are exactly the slice
of the object the window bounds describe (clamped at the object's
end), and the bounds are ordered. -/
def windowWF (content : List Nat) (w : Window) : Prop :=
  w.cache = sliceL content w.start w.wend ∧ w.start ≤ w.wend

/-- A read handle is well-formed when its window, if present,
satisfies the window invariant. -/
def rstateWF (s : RState) : Prop :=
  match s.window with
  | none => True
  | some w => windowWF s.content w

theorem sliceL_glue (xs : List α) (a b c : Nat) (hab : a ≤ b) (hbc : b ≤ c) :
    sliceL xs a b ++ sliceL xs b c = sliceL xs a c := by
  unfold sliceL
  rw [show c - a = (b - a) + (c - b) by omega, List.take_add, List.drop_drop,
    show a + (b - a) = b by omega]

theorem growLeft_wf (content : List Nat) (a5 : Nat) (w : Window)
    (hw : windowWF content w) :
    windowWF content (growLeft content a5 w) ∧
    (growLeft content a5 w).start ≤ a5 ∧
    (growLeft content a5 w).start ≤ w.start ∧
    (growLeft content a5 w).wend = w.wend := by
  obtain ⟨hc, hse⟩ := hw
  unfold growLeft
  by_cases h : a5 < w.start
  · rw [if_pos h]
    refine ⟨⟨?_, by dsimp only; omega⟩, le_refl _, by dsimp only; omega, rfl⟩
    show fetchRange content a5 w.start ++ w.cache = sliceL content a5 w.wend
    rw [hc]
    exact sliceL_glue content a5 w.start w.wend (by omega) hse
  · rw [if_neg h]
    exact ⟨⟨hc, hse⟩, by omega, le_refl _, rfl⟩

theorem growRight_wf (content : List Nat) (b5 bs : Nat) (w : Window)
    (hw : windowWF content w) :
    windowWF content (growRight content b5 bs w) ∧
    (growRight content b5 bs w).start = w.start ∧
    (∀ b, b ≤ content.length → b < b5 →
      b ≤ (growRight content b5 bs w).wend) := by
  obtain ⟨hc, hse⟩ := hw
  unfold growRight
  by_cases h : b5 > w.wend
  · rw [if_pos h]
    by_cases h2 : w.wend > content.length
    · rw [if_pos h2]
      exact ⟨⟨hc, hse⟩, rfl, fun b hb hb5 => by omega⟩
    · rw [if_neg h2]
      refine ⟨⟨?_, by dsimp only; omega⟩, rfl, fun b hb hb5 => by dsimp only; omega⟩
      show w.cache ++ fetchRange content w.wend (b5 + bs) =
        sliceL content w.start (b5 + bs)
      rw [hc]
      exact sliceL_glue content w.start w.wend (b5 + bs) hse (by omega)
  · rw [if_neg h]
    exact ⟨⟨hc, hse⟩, rfl, fun b hb hb5 => by omega⟩

theorem fetchWindow_wf (s : RState) (a b : Nat) (hwf : rstateWF s)
    (hab : a ≤ b) :
    windowWF s.content (fetchWindow s a b) ∧
    (fetchWindow s a b).start ≤ a ∧
    (b ≤ s.content.length → b ≤ (fetchWindow s a b).wend) := by
  have ha5 : a / fiveMB * fiveMB ≤ a := Nat.div_mul_le_self a fiveMB
  have hm : fiveMB = 5242880 := by norm_num [fiveMB]
  have hb5 : b < (b / fiveMB + 1) * fiveMB := by
    rw [hm]
    omega
  have main : ∀ w0 : Window, windowWF s.content w0 →
      windowWF s.content (growRight s.content ((b / fiveMB + 1) * fiveMB)
        s.blocksize (growLeft s.content (a / fiveMB * fiveMB) w0)) ∧
      (growRight s.content ((b / fiveMB + 1) * fiveMB) s.blocksize
        (growLeft s.content (a / fiveMB * fiveMB) w0)).start ≤ a ∧
      (b ≤ s.content.length →
        b ≤ (growRight s.content ((b / fiveMB + 1) * fiveMB) s.blocksize
          (growLeft s.content (a / fiveMB * fiveMB) w0)).wend) := by
    intro w0 hw0
    obtain ⟨hL, hLa, hLs, hLe⟩ := growLeft_wf s.content (a / fiveMB * fiveMB) w0 hw0
    obtain ⟨hR, hRs, hRcov⟩ :=
      growRight_wf s.content ((b / fiveMB + 1) * fiveMB) s.blocksize _ hL
    refine ⟨hR, ?_, ?_⟩
    · rw [hRs]
      omega
    · intro hb
      exact hRcov b hb hb5
  unfold fetchWindow
  cases hwin : s.window with
  | none =>
    exact main ⟨a / fiveMB * fiveMB, (b / fiveMB + 1) * fiveMB + s.blocksize,
      fetchRange s.content (a / fiveMB * fiveMB)
        ((b / fiveMB + 1) * fiveMB + s.blocksize)⟩ ⟨rfl, by dsimp only; omega⟩
  | some w =>
    refine main w ?_
    unfold rstateWF at hwf
    rw [hwin] at hwf
    exact hwf

/-- C1.  On any well-formed read handle, `seek(a)` followed by
`read(b - a)` returns exactly the bytes `content[a:b]` — `b - a` of
them — and leaves the position at `b`, for every byte range
`0 ≤ a ≤ b ≤ size` and every (positive) block size; the handle stays
well-formed, and a fresh handle is well-formed, so the property holds
along any chain of seeks and reads. -/
theorem claim1_seek_read (s : RState) (a b : Nat) (hwf : rstateWF s)
    (hcl : s.closed = false) (hab : a ≤ b) (hb : b ≤ s.content.length)
    (hbs : 0 < s.blocksize) :
    (∃ s1, seekModel s (a : Int) 0 = .ok (a, s1) ∧ s1.loc = a ∧
      ∃ s2, readModel s1 ((b : Int) - (a : Int)) =
          .ok (sliceL s.content a b, s2) ∧
        (sliceL s.content a b).length = b - a ∧
        s2.loc = b ∧ rstateWF s2 ∧ s2.content = s.content) ∧
    (∀ c bs t, rstateWF { content := c, blocksize := bs, loc := 0,
                          window := none, closed := false, trim := t }) := by
  constructor
  · have hseek : seekModel s (a : Int) 0 = .ok (a, { s with loc := a }) := by
      unfold seekModel
      rw [if_neg (by omega)]
      dsimp only
      rw [if_pos rfl, if_neg (by omega)]
      norm_num
    refine ⟨{ s with loc := a }, hseek, rfl, ?_⟩
    -- the fetched window
    have hwf1 : rstateWF { s with loc := a } := hwf
    obtain ⟨⟨hcache, hse⟩, hsa, hcov⟩ :=
      fetchWindow_wf { s with loc := a } a b hwf1 hab
    have hwend : b ≤ (fetchWindow { s with loc := a } a b).wend := hcov hb
    set w := fetchWindow { s with loc := a } a b with hwdef
    -- the returned bytes are the requested slice
    have hout : (w.cache.drop (a - w.start)).take (b - a) =
        sliceL s.content a b := by
      rw [hcache]
      unfold sliceL
      rw [List.drop_take, List.drop_drop,
        show w.start + (a - w.start) = a by omega,
        show w.wend - w.start - (a - w.start) = w.wend - a by omega,
        List.take_take, show min (b - a) (w.wend - a) = b - a by omega]
    have hlen : (sliceL s.content a b).length = b - a := by
      simp only [sliceL, List.length_take, List.length_drop]
      omega
    -- unfold the read
    unfold readModel
    dsimp only
    rw [if_neg (show ¬ ((b : Int) - (a : Int) < 0) by omega),
      show ((b : Int) - (a : Int)).toNat = b - a by omega]
    rw [if_neg (show ¬ (s.closed = true) by rw [hcl]; exact Bool.false_ne_true),
      show a + (b - a) = b by omega, ← hwdef, hout, hlen,
      show a + (b - a) = b by omega]
    by_cases ht : s.trim
    · rw [if_pos ht, if_neg (by omega)]
      by_cases hnum : ((((b - w.start) / s.blocksize : Nat) : Int) - 1) > 0
      · rw [if_pos hnum]
        set q : Nat := (b - w.start) / s.blocksize with hq
        have hq2 : 2 ≤ q := by omega
        have hqn : ((q : Int) - 1).toNat = q - 1 := by omega
        have hmul : s.blocksize * (q - 1) + s.blocksize = s.blocksize * q := by
          have h1 : q - 1 + 1 = q := by omega
          calc s.blocksize * (q - 1) + s.blocksize
              = s.blocksize * (q - 1 + 1) := by ring
            _ = s.blocksize * q := by rw [h1]
        have hdivle : s.blocksize * q ≤ b - w.start := Nat.mul_div_le _ _
        refine ⟨_, rfl, rfl, rfl, ?_, rfl⟩
        show windowWF s.content _
        dsimp only
        constructor
        · dsimp only
          rw [hqn, hcache]
          unfold sliceL
          rw [List.drop_take, List.drop_drop, Nat.sub_sub]
        · dsimp only
          rw [hqn]
          omega
      · rw [if_neg hnum]
        exact ⟨_, rfl, rfl, rfl, ⟨hcache, hse⟩, rfl⟩
    · rw [if_neg ht]
      exact ⟨_, rfl, rfl, rfl, ⟨hcache, hse⟩, rfl⟩
  · intro c bs t
    trivial

/-- A concrete fresh read handle for the C1 witness. -/
def rsWitness : RState :=
  { content := [10, 20, 30, 40], blocksize := 2, loc := 0,
    window := none, closed := false, trim := true }

theorem claim1_seek_read_witness :
    (∃ s1, seekModel rsWitness (1 : Int) 0 = .ok (1, s1) ∧ s1.loc = 1 ∧
      ∃ s2, readModel s1 ((3 : Int) - (1 : Int)) =
          .ok (sliceL rsWitness.content 1 3, s2) ∧
        (sliceL rsWitness.content 1 3).length = 3 - 1 ∧
        s2.loc = 3 ∧ rstateWF s2 ∧ s2.content = rsWitness.content) ∧
    (∀ c bs t, rstateWF { content := c, blocksize := bs, loc := 0,
                          window := none, closed := false, trim := t }) :=
  claim1_seek_read rsWitness 1 3 trivial rfl (by decide) (by decide) (by decide)

/-- C3.  When a chunk response carries a `Range` header acknowledging
bytes `0..last` — a prefix of the sent bytes, i.e.
`offset ≤ last+1 ≤ offset + len(buffer)` — the writer keeps exactly the
unacknowledged tail in the buffer, advances the committed offset to
exactly `last + 1` (never past what was acknowledged, never backwards),
and feeds exactly the acknowledged bytes to the running MD5 (when the
policy is `md5`; otherwise the hash state is untouched). -/
theorem claim3_partial_range (s : FState) (last : Int)
    (h1 : s.offset ≤ last + 1)
    (h2 : last + 1 ≤ s.offset + (s.buffer.length : Int)) :
    ∃ s2, uploadChunk s false (.rangeAck last) = .ok s2 ∧
      s2.offset = last + 1 ∧
      s2.buffer = s.buffer.drop (last + 1 - s.offset).toNat ∧
      (s.policy = .cmd5 →
        s2.md5fed = s.md5fed ++ s.buffer.take (last + 1 - s.offset).toNat) ∧
      (s.policy ≠ .cmd5 → s2.md5fed = s.md5fed) ∧
      s.offset ≤ s2.offset ∧
      s2.offset - s.offset ≤ (s.buffer.length : Int) ∧
      s2.written = s.written := by
  unfold uploadChunk
  dsimp only
  rw [if_neg Bool.false_ne_true]
  by_cases hz : s.offset + (s.buffer.length : Int) - 1 - last ≠ 0
  · rw [if_pos hz]
    refine ⟨_, rfl, ?_, ?_, ?_, ?_, ?_, ?_, ?_⟩
    · dsimp only
      omega
    · dsimp only
      unfold pyDrop
      rw [if_neg (by omega)]
      congr 1
      omega
    · intro hp
      dsimp only
      rw [if_pos hp]
      unfold pyTake
      rw [if_neg (by omega)]
      congr 2
      omega
    · intro hp
      dsimp only
      rw [if_neg hp]
    · dsimp only
      omega
    · dsimp only
      omega
    · rfl
  · rw [if_neg hz]
    refine ⟨_, rfl, ?_, ?_, ?_, ?_, ?_, ?_, ?_⟩
    · dsimp only
      omega
    · dsimp only
      rw [show (last + 1 - s.offset).toNat = s.buffer.length by omega,
        List.drop_length]
    · intro hp
      dsimp only
      rw [if_pos hp,
        show (last + 1 - s.offset).toNat = s.buffer.length by omega,
        List.take_length]
    · intro hp
      dsimp only
      rw [if_neg hp]
    · dsimp only
      omega
    · dsimp only
      omega
    · rfl

/-- A writer state for the C3 witness: committed offset 5, a 4-byte
chunk in flight, of which the server acknowledges the first 2 bytes
(`Range: bytes=0-6`). -/
def wsPartial : FState :=
  { buffer := [10, 20, 30, 40], offset := 5, md5fed := [1], written := [9],
    loc := 0, blocksize := 262144, policy := .cmd5, forced := false,
    closed := false, location := some () }

theorem claim3_partial_range_witness :
    ∃ s2, uploadChunk wsPartial false (.rangeAck 6) = .ok s2 ∧
      s2.offset = 6 + 1 ∧
      s2.buffer = wsPartial.buffer.drop ((6 : Int) + 1 - wsPartial.offset).toNat ∧
      (wsPartial.policy = .cmd5 →
        s2.md5fed = wsPartial.md5fed ++
          wsPartial.buffer.take ((6 : Int) + 1 - wsPartial.offset).toNat) ∧
      (wsPartial.policy ≠ .cmd5 → s2.md5fed = wsPartial.md5fed) ∧
      wsPartial.offset ≤ s2.offset ∧
      s2.offset - wsPartial.offset ≤ (wsPartial.buffer.length : Int) ∧
      s2.written = wsPartial.written :=
  claim3_partial_range wsPartial 6 (by decide) (by decide)

/-! ## C2: the completion-time consistency gate

A trace through the resumable-upload path with `consistency='md5'`.
The user writes 3 bytes, flushes (the chunk is fully acknowledged with
a `Range` header, as the resumable protocol does mid-stream), writes 2
more bytes and closes.  The provider behaves perfectly: it confirms
completion with `size = 5` — the total number of bytes written — and
an `md5Hash` of exactly the five written bytes.  The final
`_upload_chunk` nevertheless raises "MD5 checksum failed", because the
running `md5` object is never updated with the final chunk's bytes: at
check time it has digested only `[1, 2, 3]`. -/

def c2start : FState :=
  { buffer := [], offset := 0, md5fed := [], written := [], loc := 0,
    blocksize := 262144, policy := .cmd5, forced := false, closed := false,
    location := none }

/-- The trace up to (and including) the second write: write `[1,2,3]`,
flush (server acknowledges all three bytes: `Range: bytes=0-2`), write
`[4,5]`. -/
def c2mid : Except UErr (Int × FState) := do
  let p1 ← writeModel c2start [1, 2, 3] (.rangeAck 0)
  let s2 ← flushModel p1.2 false (.rangeAck 2)
  writeModel s2 [4, 5] (.rangeAck 0)

/-- The whole trace: ... then close, the provider confirming the
correct size (5) and the digest of exactly the five bytes written. -/
def c2run : Except UErr (FState × List CloseEffect) := do
  let p3 ← c2mid
  closeWrite p3.2 (.done 5 [1, 2, 3, 4, 5])

/-- C2 (code bug).  The claim — matching the docstring "'md5' does a
full checksum" — requires the completion check to compare the
provider's digest with the MD5 over every byte ever written.  On this
trace every byte was written and acknowledged, and the provider
returns the true size and the digest of the full written stream
`[1,2,3,4,5]`; the claim therefore requires close to succeed.  The
code instead fails the MD5 gate (`md5Mismatch`), because at check time
the running hash has been fed only the bytes acknowledged in non-final
chunks (`[1,2,3]`), never the final chunk. -/
theorem claim2_md5_gate_bug :
    c2run = .error .md5Mismatch ∧
    c2mid.map (fun p => p.2.written) = .ok [1, 2, 3, 4, 5] ∧
    c2mid.map (fun p => p.2.md5fed) = .ok [1, 2, 3] ∧
    c2mid.map (fun p => p.2.offset + (p.2.buffer.length : Int)) = .ok 5 := by
  exact ⟨rfl, rfl, rfl, rfl⟩

/-- C10.  `close` is idempotent for both modes: the first close performs
the mode-specific teardown (read: release the cache; write: one forced,
finalizing flush plus invalidation of the bucket's listing-cache entry)
and marks the handle closed; any later close returns immediately, with
no error and no effects — in particular the forced flush is never
re-run, even though calling `flush(force=True)` twice directly is an
error. -/
theorem claim10_close_idempotent (sR : RState) (sW s1 : FState)
    (resp resp2 : ChunkResp)
    (hW : sW.closed = false) (hfl : flushModel sW true resp = .ok s1) :
    (sR.closed = true → closeRead sR = (sR, [])) ∧
    (sR.closed = false → closeRead sR =
      ({ sR with window := none, closed := true }, [.releasedCache])) ∧
    closeRead (closeRead sR).1 = ((closeRead sR).1, []) ∧
    closeWrite sW resp =
      .ok ({ s1 with closed := true }, [.flushedForce, .invalidatedBucket]) ∧
    closeWrite { s1 with closed := true } resp2 =
      .ok ({ s1 with closed := true }, []) ∧
    (∀ st : FState, st.closed = false → st.forced = true →
      flushModel st true resp2 = .error .doubleForce) := by
  refine ⟨?_, ?_, ?_, ?_, ?_, ?_⟩
  · intro h
    unfold closeRead
    rw [if_pos h]
  · intro h
    unfold closeRead
    rw [if_neg (by rw [h]; exact Bool.false_ne_true)]
  · by_cases h : sR.closed = true
    · have e : closeRead sR = (sR, []) := by
        unfold closeRead
        rw [if_pos h]
      rw [e]
      unfold closeRead
      rw [if_pos h]
    · have e : closeRead sR =
          ({ sR with window := none, closed := true }, [.releasedCache]) := by
        unfold closeRead
        rw [if_neg h]
      rw [e]
      unfold closeRead
      dsimp only
      rw [if_pos rfl]
  · unfold closeWrite
    rw [if_neg (by rw [hW]; exact Bool.false_ne_true), hfl]
    rfl
  · unfold closeWrite
    dsimp only
    rw [if_pos rfl]
    rfl
  · intro st h1 h2
    unfold flushModel
    rw [if_neg (by rw [h1]; exact Bool.false_ne_true),
      if_neg (by simp), if_pos ⟨rfl, h2⟩]
    rfl

/-- A fresh write handle (`consistency='none'`) for the C10 witness;
force-flushing it performs an empty simple upload (exactly what
`touch` does) and marks it forced. -/
def wsFresh : FState :=
  { buffer := [], offset := 0, md5fed := [], written := [], loc := 0,
    blocksize := 262144, policy := .cnone, forced := false, closed := false,
    location := none }

/-- `wsFresh` after its forced flush. -/
def wsFreshFlushed : FState :=
  { buffer := [], offset := 0, md5fed := [], written := [], loc := 0,
    blocksize := 262144, policy := .cnone, forced := true, closed := false,
    location := none }

theorem claim10_close_idempotent_witness :
    (rsWitness.closed = true → closeRead rsWitness = (rsWitness, [])) ∧
    (rsWitness.closed = false → closeRead rsWitness =
      ({ rsWitness with window := none, closed := true }, [.releasedCache])) ∧
    closeRead (closeRead rsWitness).1 = ((closeRead rsWitness).1, []) ∧
    closeWrite wsFresh (.done 0 []) =
      .ok ({ wsFreshFlushed with closed := true },
        [.flushedForce, .invalidatedBucket]) ∧
    closeWrite { wsFreshFlushed with closed := true } (.done 0 []) =
      .ok ({ wsFreshFlushed with closed := true }, []) ∧
    (∀ st : FState, st.closed = false → st.forced = true →
      flushModel st true (.done 0 []) = .error .doubleForce) :=
  claim10_close_idempotent rsWitness wsFresh wsFreshFlushed
    (.done 0 []) (.done 0 []) rfl rfl

/-! ## The namespace layer: listing entries and the per-bucket cache

A listing entry is a metadata dict; for the claims here its identity is
its `name` plus whether it is one of the synthetic directory dicts that
`ls` materializes (`storageClass = 'DIRECTORY'`, fixed shape).  Real
objects from the provider's listing are never that dict, so structural
dict equality is equality of this pair.  (`_list_bucket` also
int-parses the `size` field; sizes play no role in these claims.) -/

structure LEntry where
  name : List Char
  isDirectory : Bool
  deriving Repr, DecidableEq

/-- `GCSFileSystem.dirs`: the per-bucket listing cache, keyed by bucket
name, with the empty string keying the bucket-of-buckets listing. -/
structure NState where
  dirs : List (List Char × List LEntry)
  deriving Repr, DecidableEq

/-- `self.dirs.pop(bucket, None)` / dict re-assignment helper. -/
def dRemove (m : List (List Char × List LEntry)) (k : List Char) :
    List (List Char × List LEntry) :=
  m.filter (fun p => !(p.1 == k))

/-- `self.dirs[k] = v`. -/
def dInsert (m : List (List Char × List LEntry)) (k : List Char)
    (v : List LEntry) : List (List Char × List LEntry) :=
  (k, v) :: dRemove m k

/-- The paginated fetch of `_list_bucket`: one `Except` per page (the
first request plus one follow-up per `nextPageToken`), concatenated in
order; the whole listing fails as soon as one page fails. -/
def fetchPages : List (Except GErr (List LEntry)) → Except GErr (List LEntry)
  | [] => .ok []
  | p :: rest => do
    let items ← p
    let more ← fetchPages rest
    .ok (items ++ more)

/-- `GCSFileSystem._list_buckets`:

```python
if '' not in self.dirs:
    try:
        out = self._call('get', 'b/', project=self.project)
        dirs = out.get('items', [])
    except (FileNotFoundError, IOError, ValueError):
        dirs = []
    self.dirs[''] = dirs
return self.dirs['']
```
-/
def listBuckets (s : NState) (callRes : Except GErr (List LEntry)) :
    Except GErr (List LEntry × NState) :=
  match s.dirs.lookup [] with
  | some d => .ok (d, s)
  | none =>
    match callRes with
    | .ok out => .ok (out, ⟨dInsert s.dirs [] out⟩)
    | .error .notFound => .ok ([], ⟨dInsert s.dirs [] []⟩)
    | .error .forbidden => .ok ([], ⟨dInsert s.dirs [] []⟩)
    | .error .badRequest => .ok ([], ⟨dInsert s.dirs [] []⟩)
    | .error e => .error e

/-- `f['name'] = '%s/%s' % (bucket, f['name'])`. -/
def prefixEntry (bucket : List Char) (f : LEntry) : LEntry :=
  { f with name := bucket ++ '/' :: f.name }

/-- `GCSFileSystem._list_bucket` (pagination collapsed into `pages`;
any exception propagates and leaves `self.dirs` untouched):

```python
if bucket not in self.dirs:
    out = self._call('get', 'b/{}/o/', bucket, maxResults=max_results)
    dirs = out.get('items', [])
    next_page_token = out.get('nextPageToken', None)
    while next_page_token is not None:
        out = self._call('get', 'b/{}/o/', bucket, maxResults=max_results,
                         pageToken=next_page_token)
        dirs.extend(out.get('items', []))
        next_page_token = out.get('nextPageToken', None)
    for f in dirs:
        f['name'] = '%s/%s' % (bucket, f['name'])
        f['size'] = int(f.get('size'), 0)
    self.dirs[bucket] = dirs
return self.dirs[bucket]
```
-/
def listBucket (s : NState) (bucket : List Char)
    (pages : List (Except GErr (List LEntry))) :
    Except GErr (List LEntry × NState) :=
  match s.dirs.lookup bucket with
  | some d => .ok (d, s)
  | none =>
    match fetchPages pages with
    | .error e => .error e
    | .ok items =>
      .ok (items.map (prefixEntry bucket),
        ⟨dInsert s.dirs bucket (items.map (prefixEntry bucket))⟩)

/-- `GCSFileSystem.invalidate_cache(bucket)`. -/
def invalidateCache (s : NState) (bucket : Option (List Char)) : NState :=
  match bucket with
  | none => ⟨[]⟩
  | some b => if b = ['/'] ∨ b = [] then ⟨[]⟩ else ⟨dRemove s.dirs b⟩

/-- The non-recursive branch of `GCSFileSystem.rm`: delete the object,
then `invalidate_cache(bucket)`. -/
def rmModel (s : NState) (bucket : List Char)
    (callRes : Except GErr Unit) : Except GErr NState := do
  let _ ← callRes
  .ok (invalidateCache s (some bucket))

/-- `GCSFileSystem.mkdir`: create the bucket, then invalidate the
bucket's entry and the root entry (the latter clears the whole cache,
as `invalidate_cache('')` does). -/
def mkdirModel (s : NState) (bucket : List Char)
    (callRes : Except GErr Unit) : Except GErr NState := do
  let _ ← callRes
  .ok (invalidateCache (invalidateCache s (some bucket)) (some []))

/-- `GCSFileSystem.rmdir`: delete the bucket, drop it from the cached
root listing (in place), and pop its own cache entry. -/
def rmdirModel (s : NState) (bucket : List Char)
    (callRes : Except GErr Unit) : Except GErr NState := do
  let _ ← callRes
  let dirs1 :=
    match s.dirs.lookup [] with
    | some v => dInsert s.dirs [] (v.filter (fun e => !(e.name == bucket)))
    | none => s.dirs
  .ok ⟨dRemove dirs1 bucket⟩

theorem dRemove_lookup_self (m : List (List Char × List LEntry))
    (k : List Char) : (dRemove m k).lookup k = none := by
  induction m with
  | nil => rfl
  | cons p rest ih =>
    obtain ⟨k1, v1⟩ := p
    by_cases h : k1 = k
    · simpa [dRemove, List.filter_cons, h] using ih
    · have hbeq : (k1 == k) = false := beq_eq_false_iff_ne.mpr h
      have hbeq2 : (k == k1) = false := beq_eq_false_iff_ne.mpr (Ne.symm h)
      simpa [dRemove, List.filter_cons, hbeq, hbeq2, List.lookup] using ih

theorem dInsert_lookup_self (m : List (List Char × List LEntry))
    (k : List Char) (v : List LEntry) :
    (dInsert m k v).lookup k = some v := by
  unfold dInsert
  simp [List.lookup]

/-- C9 counterexample.  The claim says a failed listing leaves no cache
entry for the key.  For the bucket-of-buckets key `''`,
`_list_buckets` swallows `(FileNotFoundError, IOError, ValueError)` and
caches an *empty* listing: after a forbidden failure on a cold cache,
the entry for `''` is present (an empty list). -/
theorem claim9_cache_counterexample :
    listBuckets ⟨[]⟩ (.error .forbidden) = .ok ([], ⟨[([], [])]⟩) ∧
    (NState.mk [([], [])]).dirs.lookup [] = some [] := by
  exact ⟨rfl, rfl⟩

/-- C9 amended.  For named buckets the invariant holds: `_list_bucket`
caches an entry only after every page has been fetched successfully
(the entry being the concatenated pages with names prefixed), and a
failed listing propagates the error without touching the cache; `rm`,
`mkdir` and `rmdir` all remove the affected bucket's entry.  For the
root key `''`, however, a not-found/forbidden/bad-request failure of
`_list_buckets` caches an empty listing (other failures propagate and
cache nothing). -/
theorem claim9_cache_amended :
    (∀ (s : NState) (b : List Char) pages e, s.dirs.lookup b = none →
      fetchPages pages = .error e → listBucket s b pages = .error e) ∧
    (∀ (s : NState) (b : List Char) pages items, s.dirs.lookup b = none →
      fetchPages pages = .ok items →
      listBucket s b pages = .ok (items.map (prefixEntry b),
        ⟨dInsert s.dirs b (items.map (prefixEntry b))⟩) ∧
      (dInsert s.dirs b (items.map (prefixEntry b))).lookup b =
        some (items.map (prefixEntry b))) ∧
    (∀ pages items, fetchPages pages = .ok items →
      ∀ p ∈ pages, ∃ v, p = .ok v) ∧
    (∀ (s : NState) e, s.dirs.lookup [] = none →
      (e = .provider ∨ e = .transport ∨ e = .runtime →
        listBuckets s (.error e) = .error e) ∧
      (e = .notFound ∨ e = .forbidden ∨ e = .badRequest →
        listBuckets s (.error e) = .ok ([], ⟨dInsert s.dirs [] []⟩))) ∧
    (∀ (s : NState) (b : List Char) res s2, rmModel s b res = .ok s2 →
      s2.dirs.lookup b = none) ∧
    (∀ (s : NState) (b : List Char) res s2, mkdirModel s b res = .ok s2 →
      s2.dirs.lookup b = none) ∧
    (∀ (s : NState) (b : List Char) res s2, rmdirModel s b res = .ok s2 →
      s2.dirs.lookup b = none) := by
  have hinv : ∀ (s : NState) (b : List Char),
      (invalidateCache s (some b)).dirs.lookup b = none := by
    intro s b
    unfold invalidateCache
    dsimp only
    by_cases h : b = ['/'] ∨ b = []
    · rw [if_pos h]
      rfl
    · rw [if_neg h]
      exact dRemove_lookup_self s.dirs b
  have hroot : ∀ s : NState, invalidateCache s (some []) = ⟨[]⟩ := by
    intro s
    unfold invalidateCache
    dsimp only
    rw [if_pos (Or.inr rfl)]
  refine ⟨?_, ?_, ?_, ?_, ?_, ?_, ?_⟩
  · intro s b pages e hnone herr
    unfold listBucket
    rw [hnone, herr]
  · intro s b pages items hnone hok
    unfold listBucket
    rw [hnone, hok]
    exact ⟨rfl, dInsert_lookup_self _ _ _⟩
  · intro pages
    induction pages with
    | nil => intro items _ p hp; cases hp
    | cons p rest ih =>
      intro items hok q hq
      unfold fetchPages at hok
      cases hp : p with
      | error e => rw [hp] at hok; cases hok
      | ok v =>
        rw [hp] at hok
        cases hrest : fetchPages rest with
        | error e =>
          rw [show (do
              let items ← Except.ok v
              let more ← fetchPages rest
              (.ok (items ++ more) : Except GErr (List LEntry))) =
            ((fetchPages rest).bind fun more => .ok (v ++ more)) from rfl,
            hrest] at hok
          cases hok
        | ok more =>
          rcases List.mem_cons.mp hq with rfl | hq2
          · exact ⟨v, hp⟩
          · exact ih more hrest q hq2
  · intro s e hnone
    constructor
    · intro he
      unfold listBuckets
      rw [hnone]
      rcases he with rfl | rfl | rfl <;> rfl
    · intro he
      unfold listBuckets
      rw [hnone]
      rcases he with rfl | rfl | rfl <;> rfl
  · intro s b res s2 hok
    cases res with
    | error e => cases hok
    | ok u =>
      have : s2 = invalidateCache s (some b) := by
        cases hok
        rfl
      rw [this]
      exact hinv s b
  · intro s b res s2 hok
    cases res with
    | error e => cases hok
    | ok u =>
      have : s2 = invalidateCache (invalidateCache s (some b)) (some []) := by
        cases hok
        rfl
      rw [this, hroot]
      rfl
  · intro s b res s2 hok
    cases res with
    | error e => cases hok
    | ok u =>
      have : s2 = ⟨dRemove
          (match s.dirs.lookup [] with
           | some v => dInsert s.dirs []
               (v.filter (fun e => !(e.name == b)))
           | none => s.dirs) b⟩ := by
        cases hok
        rfl
      rw [this]
      exact dRemove_lookup_self _ b

theorem claim9_cache_amended_witness :
    listBucket ⟨[]⟩ ['b'] [.error .transport] = .error .transport ∧
    listBucket ⟨[]⟩ ['b'] [.ok [⟨['x'], false⟩], .ok [⟨['y'], false⟩]] =
      .ok ([⟨['b', '/', 'x'], false⟩, ⟨['b', '/', 'y'], false⟩],
        ⟨[(['b'], [⟨['b', '/', 'x'], false⟩, ⟨['b', '/', 'y'], false⟩])]⟩) ∧
    listBuckets ⟨[]⟩ (.error .transport) = .error .transport := by
  refine ⟨?_, ?_, ?_⟩
  · exact (claim9_cache_amended.1 ⟨[]⟩ ['b'] [.error .transport]
      .transport rfl rfl)
  · have h := (claim9_cache_amended.2.1 ⟨[]⟩ ['b']
      [.ok [⟨['x'], false⟩], .ok [⟨['y'], false⟩]]
      [⟨['x'], false⟩, ⟨['y'], false⟩] rfl rfl).1
    exact h
  · exact ((claim9_cache_amended.2.2.2.1 ⟨[]⟩ .transport rfl).1
      (Or.inr (Or.inl rfl)))

/-! ## C5: directory synthesis in `ls`, and `walk` -/

/-- `split_path`:

```python
if path.startswith('gcs://'):
    path = path[6:]
if path.startswith('gs://'):
    path = path[5:]
if '/' not in path:
    return path, ""
else:
    return path.split('/', 1)
```
-/
def splitPath (path0 : List Char) : List Char × List Char :=
  let p1 := if (['g', 'c', 's', ':', '/', '/']).isPrefixOf path0
    then path0.drop 6 else path0
  let p2 := if (['g', 's', ':', '/', '/']).isPrefixOf p1
    then p1.drop 5 else p1
  if '/' ∈ p2 then (p2.takeWhile (· ≠ '/'), (p2.dropWhile (· ≠ '/')).drop 1)
  else (p2, [])

/-- `path.endswith('/')`. -/
def endsWithSlash (p : List Char) : Bool :=
  p.getLast? == some '/'

/-- The direct-entry condition of the `ls` loop:
`f['name'].startswith(seek) and '/' not in f['name'][l:] or
f['name'] == path`. -/
def directP (seek : List Char) (l : Nat) (path : List Char)
    (f : LEntry) : Prop :=
  (seek.isPrefixOf f.name = true ∧ ¬ '/' ∈ f.name.drop l) ∨ f.name = path

instance directPDec (seek : List Char) (l : Nat) (path : List Char)
    (f : LEntry) : Decidable (directP seek l path f) := by
  unfold directP
  infer_instance

/-- The synthetic-directory condition of the `ls` loop:
`f['name'].startswith(seek) and '/' in f['name'][l:]`. -/
def indirP (seek : List Char) (l : Nat) (f : LEntry) : Prop :=
  seek.isPrefixOf f.name = true ∧ '/' ∈ f.name.drop l

instance indirPDec (seek : List Char) (l : Nat) (f : LEntry) :
    Decidable (indirP seek l f) := by
  unfold indirP
  infer_instance

/-- The synthetic directory dict:
`{'bucket': ..., 'kind': 'storage#object', 'size': 0,
  'storageClass': 'DIRECTORY',
  'name': path+bit+f['name'][l:].split('/', 1)[0]+'/'}`. -/
def dirEntryOf (path bit : List Char) (l : Nat) (f : LEntry) : LEntry :=
  ⟨path ++ bit ++ (f.name.drop l).takeWhile (· ≠ '/') ++ ['/'], true⟩

/-- The `for f in files` loop body of `ls` (non-root path), with `out`
the accumulator; a synthetic directory is appended only if not already
present (`if directory not in out`). -/
def lsGo (seek : List Char) (l : Nat) (path bit : List Char) :
    List LEntry → List LEntry → List LEntry
  | [], out => out
  | f :: fs, out =>
    if directP seek l path f then lsGo seek l path bit fs (out ++ [f])
    else if indirP seek l f then
      if dirEntryOf path bit l f ∈ out then lsGo seek l path bit fs out
      else lsGo seek l path bit fs (out ++ [dirEntryOf path bit l f])
    else lsGo seek l path bit fs out

/-- `GCSFileSystem.ls(path)` for a non-root path (`files` being the
bucket's cached listing):

```python
bucket, prefix = split_path(path)
path = '/'.join([bucket, prefix])
files = self._list_bucket(bucket)
seek, l, bit = (path, len(path), '') if path.endswith('/') else (
    path+'/', len(path)+1, '/')
out = []
for f in files:
    ...
```
-/
def lsModel (files : List LEntry) (path0 : List Char) : List LEntry :=
  let path := (splitPath path0).1 ++ '/' :: (splitPath path0).2
  if endsWithSlash path then lsGo path path.length path [] files []
  else lsGo (path ++ ['/']) (path.length + 1) path ['/'] files []

/-- `ls(path, detail=False)`: the entry names. -/
def lsNames (files : List LEntry) (path0 : List Char) : List (List Char) :=
  (lsModel files path0).map (·.name)

/-- `GCSFileSystem.walk(path, detail=False)`:

```python
bucket, prefix = split_path(path)
if not bucket:
    raise ValueError('Cannot walk all of GCS')
path = '/'.join([bucket, prefix])
files = self._list_bucket(bucket)
if path.endswith('/'):
    files = [f for f in files if f['name'].startswith(path) or
             f['name'] == path]
else:
    files = [f for f in files if f['name'].startswith(path+'/') or
             f['name'] == path]
```
-/
def walkModel (files : List LEntry) (path0 : List Char) :
    Except GErr (List (List Char)) :=
  if (splitPath path0).1 = [] then .error .badRequest
  else
    let path := (splitPath path0).1 ++ '/' :: (splitPath path0).2
    if endsWithSlash path then
      .ok ((files.filter
        (fun f => path.isPrefixOf f.name || f.name == path)).map (·.name))
    else
      .ok ((files.filter
        (fun f => (path ++ ['/']).isPrefixOf f.name || f.name == path)).map
          (·.name))

theorem lsGo_mem (seek : List Char) (l : Nat) (path bit : List Char) :
    ∀ (fs out : List LEntry) (x : LEntry),
      x ∈ lsGo seek l path bit fs out ↔
        x ∈ out ∨ (∃ f ∈ fs, directP seek l path f ∧ x = f) ∨
          (∃ f ∈ fs, ¬ directP seek l path f ∧ indirP seek l f ∧
            x = dirEntryOf path bit l f) := by
  intro fs
  induction fs with
  | nil =>
    intro out x
    simp [lsGo]
  | cons f fs ih =>
    intro out x
    unfold lsGo
    by_cases hd : directP seek l path f
    · rw [if_pos hd, ih]
      constructor
      · rintro (hx | ⟨g, hg, hgd, hxg⟩ | ⟨g, hg, hgn, hgi, hxg⟩)
        · rcases List.mem_append.mp hx with hx | hx
          · exact Or.inl hx
          · exact Or.inr (Or.inl ⟨f, List.mem_cons_self f fs,
              hd, List.mem_singleton.mp hx⟩)
        · exact Or.inr (Or.inl ⟨g, List.mem_cons_of_mem f hg, hgd, hxg⟩)
        · exact Or.inr (Or.inr ⟨g, List.mem_cons_of_mem f hg, hgn, hgi, hxg⟩)
      · rintro (hx | ⟨g, hg, hgd, hxg⟩ | ⟨g, hg, hgn, hgi, hxg⟩)
        · exact Or.inl (List.mem_append.mpr (Or.inl hx))
        · rcases List.mem_cons.mp hg with rfl | hg2
          · exact Or.inl (List.mem_append.mpr (Or.inr
              (List.mem_singleton.mpr hxg)))
          · exact Or.inr (Or.inl ⟨g, hg2, hgd, hxg⟩)
        · rcases List.mem_cons.mp hg with rfl | hg2
          · exact absurd hd hgn
          · exact Or.inr (Or.inr ⟨g, hg2, hgn, hgi, hxg⟩)
    · rw [if_neg hd]
      by_cases hi : indirP seek l f
      · rw [if_pos hi]
        by_cases hdup : dirEntryOf path bit l f ∈ out
        · rw [if_pos hdup, ih]
          constructor
          · rintro (hx | ⟨g, hg, hgd, hxg⟩ | ⟨g, hg, hgn, hgi, hxg⟩)
            · exact Or.inl hx
            · exact Or.inr (Or.inl ⟨g, List.mem_cons_of_mem f hg, hgd, hxg⟩)
            · exact Or.inr (Or.inr ⟨g, List.mem_cons_of_mem f hg, hgn, hgi,
                hxg⟩)
          · rintro (hx | ⟨g, hg, hgd, hxg⟩ | ⟨g, hg, hgn, hgi, hxg⟩)
            · exact Or.inl hx
            · rcases List.mem_cons.mp hg with rfl | hg2
              · exact absurd hgd hd
              · exact Or.inr (Or.inl ⟨g, hg2, hgd, hxg⟩)
            · rcases List.mem_cons.mp hg with rfl | hg2
              · refine Or.inl ?_
                rw [hxg]
                exact hdup
              · exact Or.inr (Or.inr ⟨g, hg2, hgn, hgi, hxg⟩)
        · rw [if_neg hdup, ih]
          constructor
          · rintro (hx | ⟨g, hg, hgd, hxg⟩ | ⟨g, hg, hgn, hgi, hxg⟩)
            · rcases List.mem_append.mp hx with hx | hx
              · exact Or.inl hx
              · exact Or.inr (Or.inr ⟨f, List.mem_cons_self f fs, hd, hi,
                  List.mem_singleton.mp hx⟩)
            · exact Or.inr (Or.inl ⟨g, List.mem_cons_of_mem f hg, hgd, hxg⟩)
            · exact Or.inr (Or.inr ⟨g, List.mem_cons_of_mem f hg, hgn, hgi,
                hxg⟩)
          · rintro (hx | ⟨g, hg, hgd, hxg⟩ | ⟨g, hg, hgn, hgi, hxg⟩)
            · exact Or.inl (List.mem_append.mpr (Or.inl hx))
            · rcases List.mem_cons.mp hg with rfl | hg2
              · exact absurd hgd hd
              · exact Or.inr (Or.inl ⟨g, hg2, hgd, hxg⟩)
            · rcases List.mem_cons.mp hg with rfl | hg2
              · exact Or.inl (List.mem_append.mpr (Or.inr
                  (List.mem_singleton.mpr hxg)))
              · exact Or.inr (Or.inr ⟨g, hg2, hgn, hgi, hxg⟩)
      · rw [if_neg hi, ih]
        constructor
        · rintro (hx | ⟨g, hg, hgd, hxg⟩ | ⟨g, hg, hgn, hgi, hxg⟩)
          · exact Or.inl hx
          · exact Or.inr (Or.inl ⟨g, List.mem_cons_of_mem f hg, hgd, hxg⟩)
          · exact Or.inr (Or.inr ⟨g, List.mem_cons_of_mem f hg, hgn, hgi,
              hxg⟩)
        · rintro (hx | ⟨g, hg, hgd, hxg⟩ | ⟨g, hg, hgn, hgi, hxg⟩)
          · exact Or.inl hx
          · rcases List.mem_cons.mp hg with rfl | hg2
            · exact absurd hgd hd
            · exact Or.inr (Or.inl ⟨g, hg2, hgd, hxg⟩)
          · rcases List.mem_cons.mp hg with rfl | hg2
            · exact absurd hgi hi
            · exact Or.inr (Or.inr ⟨g, hg2, hgn, hgi, hxg⟩)

theorem dirEntry_name_drop (path bit : List Char) (l : Nat) (f : LEntry) :
    (dirEntryOf path bit l f).name.drop (path ++ bit).length =
      (f.name.drop l).takeWhile (· ≠ '/') ++ ['/'] := by
  unfold dirEntryOf
  dsimp only
  rw [show path ++ bit ++ (f.name.drop l).takeWhile (· ≠ '/') ++ ['/'] =
    (path ++ bit) ++ ((f.name.drop l).takeWhile (· ≠ '/') ++ ['/']) by
      simp [List.append_assoc]]
  exact List.drop_left _ _

/-- A direct entry's name never coincides with a synthetic directory
name: the latter contains a `/` after position `l`, the former does
not (and the literal-`path` case is shorter than any directory name). -/
theorem direct_name_ne_dirEntry (seek : List Char) (l : Nat)
    (path bit : List Char) (hsb : seek = path ++ bit) (hl : l = seek.length)
    (f g : LEntry) (hd : directP seek l path f) :
    f.name ≠ (dirEntryOf path bit l g).name := by
  intro h
  rcases hd with ⟨hpre, hnos⟩ | hpath
  · apply hnos
    rw [h, hl, hsb, dirEntry_name_drop]
    simp
  · rw [hpath] at h
    have hlen := congrArg List.length h
    unfold dirEntryOf at hlen
    simp [List.length_append] at hlen

/-- Deduplication invariant of the `ls` loop: if the accumulated names
are distinct, the files still to process have distinct names none of
which (among the direct ones) is already accumulated, and every file
entry accumulated so far passed the direct test, then the final name
list is duplicate-free. -/
theorem lsGo_nodup (seek : List Char) (l : Nat) (path bit : List Char)
    (hsb : seek = path ++ bit) (hl : l = seek.length) :
    ∀ (fs out : List LEntry),
      (out.map (·.name)).Nodup →
      (fs.map (·.name)).Nodup →
      (∀ f ∈ fs, f.isDirectory = false) →
      (∀ f ∈ fs, directP seek l path f → f.name ∉ out.map (·.name)) →
      (∀ e ∈ out, e.isDirectory = false → directP seek l path e) →
      ((lsGo seek l path bit fs out).map (·.name)).Nodup := by
  intro fs
  induction fs with
  | nil =>
    intro out h1 _ _ _ _
    simpa [lsGo] using h1
  | cons f fs ih =>
    intro out hout hfs hfd hdisj houtF
    simp only [List.map_cons] at hfs
    obtain ⟨hf1, hfsn⟩ := List.nodup_cons.mp hfs
    unfold lsGo
    by_cases hd : directP seek l path f
    · rw [if_pos hd]
      apply ih (out ++ [f])
      · rw [List.map_append]
        apply List.nodup_append.mpr
        refine ⟨hout, by simp, ?_⟩
        intro a ha hafn
        have ha2 : a = f.name := by simpa using hafn
        exact hdisj f (List.mem_cons_self f fs) hd (ha2 ▸ ha)
      · exact hfsn
      · intro g hg
        exact hfd g (List.mem_cons_of_mem f hg)
      · intro g hg hgd
        rw [List.map_append]
        intro hmem
        rcases List.mem_append.mp hmem with hmem | hmem
        · exact hdisj g (List.mem_cons_of_mem f hg) hgd hmem
        · have hg2 : g.name = f.name := by simpa using hmem
          exact hf1 (hg2 ▸ List.mem_map.mpr ⟨g, hg, rfl⟩)
      · intro e he hef
        rcases List.mem_append.mp he with he | he
        · exact houtF e he hef
        · have he2 : e = f := by simpa using he
          rw [he2]
          exact hd
    · rw [if_neg hd]
      by_cases hi : indirP seek l f
      · rw [if_pos hi]
        by_cases hdup : dirEntryOf path bit l f ∈ out
        · rw [if_pos hdup]
          exact ih out hout hfsn (fun g hg => hfd g (List.mem_cons_of_mem f hg))
            (fun g hg hgd => hdisj g (List.mem_cons_of_mem f hg) hgd) houtF
        · rw [if_neg hdup]
          apply ih (out ++ [dirEntryOf path bit l f])
          · rw [List.map_append]
            apply List.nodup_append.mpr
            refine ⟨hout, by simp, ?_⟩
            intro a ha haf
            have haf2 : a = (dirEntryOf path bit l f).name := by simpa using haf
            obtain ⟨e, he, hea⟩ := List.mem_map.mp ha
            cases hedir : e.isDirectory with
            | false =>
              exact direct_name_ne_dirEntry seek l path bit hsb hl e f
                (houtF e he hedir) (hea.trans haf2)
            | true =>
              have he3 : e = dirEntryOf path bit l f := by
                cases e with
                | mk en ed =>
                  unfold dirEntryOf
                  simp only [LEntry.mk.injEq]
                  constructor
                  · have : en = a := hea
                    rw [this, haf2]
                    rfl
                  · simpa using hedir
              exact hdup (he3 ▸ he)
          · exact hfsn
          · intro g hg
            exact hfd g (List.mem_cons_of_mem f hg)
          · intro g hg hgd
            rw [List.map_append]
            intro hmem
            rcases List.mem_append.mp hmem with hmem | hmem
            · exact hdisj g (List.mem_cons_of_mem f hg) hgd hmem
            · have hg2 : g.name = (dirEntryOf path bit l f).name := by
                simpa using hmem
              exact direct_name_ne_dirEntry seek l path bit hsb hl g f hgd hg2
          · intro e he hef
            rcases List.mem_append.mp he with he | he
            · exact houtF e he hef
            · have he2 : e = dirEntryOf path bit l f := by simpa using he
              rw [he2] at hef
              simp [dirEntryOf] at hef
      · rw [if_neg hi]
        exact ih out hout hfsn (fun g hg => hfd g (List.mem_cons_of_mem f hg))
          (fun g hg hgd => hdisj g (List.mem_cons_of_mem f hg) hgd) houtF

/-- String-literal helper for concrete path examples. -/
def cs (s : String) : List Char :=
  s.toList

/-- The flat listing of the spec's example: `bucket/a/b.txt`,
`bucket/a/c/d.txt`, `bucket/a/c/e.txt`. -/
def demoFiles : List LEntry :=
  [⟨cs "bucket/a/b.txt", false⟩, ⟨cs "bucket/a/c/d.txt", false⟩,
   ⟨cs "bucket/a/c/e.txt", false⟩]

/-- C5.  For a non-root prefix `p` ending in `/`, `ls` returns exactly:
the objects whose name extends `p` with no further `/`, plus one
deduplicated synthetic directory `p ++ seg ++ "/"` per first segment
`seg` of the remainders that do contain a `/`; the returned names are
duplicate-free.  On the spec's example listing, `ls('bucket/a/')` is
exactly `[bucket/a/b.txt, bucket/a/c/]` and `walk('bucket/a')` is
exactly the three real objects, with no synthetic entries. -/
theorem claim5_ls_walk (files : List LEntry) (p : List Char)
    (hfd : ∀ f ∈ files, f.isDirectory = false)
    (hnd : (files.map (·.name)).Nodup)
    (hjoin : (splitPath p).1 ++ '/' :: (splitPath p).2 = p)
    (hslash : endsWithSlash p = true) :
    (∀ x, x ∈ lsNames files p ↔
      (∃ f ∈ files, f.name = x ∧ p.isPrefixOf x = true ∧
        ¬ '/' ∈ x.drop p.length) ∨
      (∃ f ∈ files, p.isPrefixOf f.name = true ∧
        '/' ∈ f.name.drop p.length ∧
        x = p ++ ((f.name.drop p.length).takeWhile (· ≠ '/') ++ ['/']))) ∧
    (lsNames files p).Nodup ∧
    lsNames demoFiles (cs "bucket/a/") =
      [cs "bucket/a/b.txt", cs "bucket/a/c/"] ∧
    walkModel demoFiles (cs "bucket/a") =
      .ok [cs "bucket/a/b.txt", cs "bucket/a/c/d.txt",
        cs "bucket/a/c/e.txt"] := by
  have hdir_iff : ∀ f : LEntry, directP p p.length p f ↔
      (p.isPrefixOf f.name = true ∧ ¬ '/' ∈ f.name.drop p.length) := by
    intro f
    unfold directP
    constructor
    · rintro (⟨h1, h2⟩ | hph)
      · exact ⟨h1, h2⟩
      · rw [hph]
        exact ⟨List.isPrefixOf_iff_prefix.mpr (List.prefix_refl p),
          by simp [List.drop_length]⟩
    · exact fun h => Or.inl h
  have hnodir : ∀ f : LEntry, indirP p p.length f →
      ¬ directP p p.length p f := by
    intro f hi hd
    exact ((hdir_iff f).mp hd).2 hi.2
  refine ⟨?_, ?_, ?_, ?_⟩
  · intro x
    unfold lsNames lsModel
    rw [hjoin, if_pos hslash, List.mem_map]
    constructor
    · rintro ⟨e, he, rfl⟩
      rcases (lsGo_mem p p.length p [] files [] e).mp he with
        h0 | ⟨f, hf, hfd2, hef⟩ | ⟨f, hf, hfn, hfi, hef⟩
      · exact absurd h0 (List.not_mem_nil e)
      · left
        obtain ⟨hpre, hnos⟩ := (hdir_iff f).mp hfd2
        rw [hef]
        exact ⟨f, hf, rfl, hpre, hnos⟩
      · right
        refine ⟨f, hf, hfi.1, hfi.2, ?_⟩
        rw [hef]
        unfold dirEntryOf
        simp
    · rintro (⟨f, hf, hname, hpre, hnos⟩ | ⟨f, hf, hpre, hsl, hxeq⟩)
      · refine ⟨f, (lsGo_mem p p.length p [] files [] f).mpr
          (Or.inr (Or.inl ⟨f, hf, (hdir_iff f).mpr
            ⟨by rw [hname]; exact hpre, by rw [hname]; exact hnos⟩, rfl⟩)),
          hname⟩
      · refine ⟨dirEntryOf p [] p.length f,
          (lsGo_mem p p.length p [] files []
            (dirEntryOf p [] p.length f)).mpr
            (Or.inr (Or.inr ⟨f, hf, hnodir f ⟨hpre, hsl⟩, ⟨hpre, hsl⟩,
              rfl⟩)), ?_⟩
        rw [hxeq]
        unfold dirEntryOf
        simp
  · unfold lsNames lsModel
    rw [hjoin, if_pos hslash]
    apply lsGo_nodup p p.length p [] (by simp) rfl files []
    · simp
    · exact hnd
    · exact hfd
    · intro f _ _
      simp
    · intro e he
      exact absurd he (List.not_mem_nil e)
  · decide
  · rfl

theorem claim5_ls_walk_witness :
    (∀ x, x ∈ lsNames demoFiles (cs "bucket/a/") ↔
      (∃ f ∈ demoFiles, f.name = x ∧
        (cs "bucket/a/").isPrefixOf x = true ∧
        ¬ '/' ∈ x.drop (cs "bucket/a/").length) ∨
      (∃ f ∈ demoFiles, (cs "bucket/a/").isPrefixOf f.name = true ∧
        '/' ∈ f.name.drop (cs "bucket/a/").length ∧
        x = cs "bucket/a/" ++
          ((f.name.drop (cs "bucket/a/").length).takeWhile (· ≠ '/') ++
            ['/']))) ∧
    (lsNames demoFiles (cs "bucket/a/")).Nodup ∧
    lsNames demoFiles (cs "bucket/a/") =
      [cs "bucket/a/b.txt", cs "bucket/a/c/"] ∧
    walkModel demoFiles (cs "bucket/a") =
      .ok [cs "bucket/a/b.txt", cs "bucket/a/c/d.txt",
        cs "bucket/a/c/e.txt"] :=
  claim5_ls_walk demoFiles (cs "bucket/a/") (by decide) (by decide)
    (by decide) (by decide)

/-! ## C6: `glob`

The compiled pattern is
`"^" + path.replace('//', '/').rstrip('/').replace('**', '.+')
      .replace('*', '[^/]+').replace('?', '.') + "$"`,
matched with `re.match` against each walked name
(`f.replace('//','/').rstrip('/')`).  The regex alphabet this produces
is: literal characters, `.` (any character except newline — both from
`?` and from literal dots in the pattern, which the code does not
escape), `.+` and `[^/]+`.  The anchored match of such a pattern is
`reFullMatch`: the tokens consume the whole string (`gmatch`), or —
because re's `$` also matches just before a newline that ends the
string — all of it but one trailing newline.  (Regex metacharacters
other than `.` in the pattern are outside the model.) -/

inductive GTok where
  | lit (c : Char)
  | anyOne
  | plusAny
  | plusNotSlash
  deriving Repr, DecidableEq

/-- The wildcard-to-regex translation, left to right; `**` first, as
`replace('**', '.+')` runs before `replace('*', '[^/]+')`. -/
def globToks : List Char → List GTok
  | [] => []
  | '*' :: '*' :: rest => .plusAny :: globToks rest
  | '*' :: rest => .plusNotSlash :: globToks rest
  | '?' :: rest => .anyOne :: globToks rest
  | '.' :: rest => .anyOne :: globToks rest
  | c :: rest => .lit c :: globToks rest

/-- Anchored match of the translated pattern against a string. -/
def gmatch : List Char → List GTok → Bool
  | [], ts => ts.isEmpty
  | _ :: _, [] => false
  | x :: xs, .lit c :: ts => (x == c) && gmatch xs ts
  | x :: xs, .anyOne :: ts => (x != '\n') && gmatch xs ts
  | x :: xs, .plusAny :: ts =>
    (x != '\n') && (gmatch xs ts || gmatch xs (.plusAny :: ts))
  | x :: xs, .plusNotSlash :: ts =>
    (x != '/') && (gmatch xs ts || gmatch xs (.plusNotSlash :: ts))

/-- `re.match` of the compiled `^...$` pattern against `s`: `$` anchors
at the end of the string, or just before a newline that ends it, so the
tokens must consume either all of `s` or all of `s` minus one trailing
newline. -/
def reFullMatch (s : List Char) (ts : List GTok) : Bool :=
  gmatch s ts || (s.getLast? == some '\n') && gmatch s.dropLast ts

/-- `path.rstrip('/')`. -/
def rstripSlash (p : List Char) : List Char :=
  (p.reverse.dropWhile (· = '/')).reverse

/-- `path.replace('//', '/')` (non-overlapping, left to right). -/
def collapseSlash : List Char → List Char
  | [] => []
  | '/' :: '/' :: rest => '/' :: collapseSlash rest
  | c :: rest => c :: collapseSlash rest

/-- `path[:path.index('*')]` (for paths that contain a `*`). -/
def beforeStar (p : List Char) : List Char :=
  p.takeWhile (· ≠ '*')

/-- `path[:ind + 1]` for `ind = pre.rindex('/')`: everything up to and
including the last slash. -/
def keepThroughLastSlash (pre : List Char) : List Char :=
  (pre.reverse.dropWhile (· ≠ '/')).reverse

/-- `GCSFileSystem.glob(path)`:

```python
path = path.rstrip('/')
bucket, key = split_path(path)
path = '/'.join([bucket, key])
if "*" in bucket:
    raise ValueError('Bucket cannot contain a "*"')
if '*' not in path:
    path = path.rstrip('/') + '/*'
if '/' in path[:path.index('*')]:
    ind = path[:path.index('*')].rindex('/')
    root = path[:ind + 1]
else:
    root = ''
allfiles = self.walk(root)
pattern = re.compile("^" + path.replace('//', '/')
                     .rstrip('/').replace('**', '.+')
                     .replace('*', '[^/]+')
                     .replace('?', '.') + "$")
out = [f for f in allfiles if re.match(pattern,
       f.replace('//', '/').rstrip('/'))]
return out
```
-/
def globModel (files : List LEntry) (path0 : List Char) :
    Except GErr (List (List Char)) :=
  let path1 := rstripSlash path0
  let path2 := (splitPath path1).1 ++ '/' :: (splitPath path1).2
  if '*' ∈ (splitPath path1).1 then .error .badRequest
  else
    let path3 := if '*' ∈ path2 then path2 else rstripSlash path2 ++ ['/', '*']
    let root := if '/' ∈ beforeStar path3
      then keepThroughLastSlash (beforeStar path3) else []
    match walkModel files root with
    | .error e => .error e
    | .ok allfiles =>
      .ok (allfiles.filter (fun f =>
        reFullMatch (rstripSlash (collapseSlash f))
          (globToks (rstripSlash (collapseSlash path3)))))

theorem gmatch_plusNotSlash (s : List Char) :
    gmatch s [.plusNotSlash] = true ↔ s ≠ [] ∧ ∀ c ∈ s, c ≠ '/' := by
  induction s with
  | nil => simp [gmatch]
  | cons x xs ih =>
    cases xs with
    | nil => simp [gmatch]
    | cons y ys =>
      rw [show gmatch (x :: y :: ys) [GTok.plusNotSlash] =
          ((x != '/') && (false || gmatch (y :: ys) [GTok.plusNotSlash]))
        from rfl, Bool.false_or, Bool.and_eq_true, bne_iff_ne, ih]
      constructor
      · rintro ⟨h1, _, h3⟩
        refine ⟨by simp, ?_⟩
        intro c hc
        rcases List.mem_cons.mp hc with rfl | hc2
        · exact h1
        · exact h3 c hc2
      · rintro ⟨_, h2⟩
        exact ⟨h2 x (List.mem_cons_self x _), by simp,
          fun c hc => h2 c (List.mem_cons_of_mem x hc)⟩

theorem gmatch_plusAny (s : List Char) :
    gmatch s [.plusAny] = true ↔ s ≠ [] ∧ ∀ c ∈ s, c ≠ '\n' := by
  induction s with
  | nil => simp [gmatch]
  | cons x xs ih =>
    cases xs with
    | nil => simp [gmatch]
    | cons y ys =>
      rw [show gmatch (x :: y :: ys) [GTok.plusAny] =
          ((x != '\n') && (false || gmatch (y :: ys) [GTok.plusAny]))
        from rfl, Bool.false_or, Bool.and_eq_true, bne_iff_ne, ih]
      constructor
      · rintro ⟨h1, _, h3⟩
        refine ⟨by simp, ?_⟩
        intro c hc
        rcases List.mem_cons.mp hc with rfl | hc2
        · exact h1
        · exact h3 c hc2
      · rintro ⟨_, h2⟩
        exact ⟨h2 x (List.mem_cons_self x _), by simp,
          fun c hc => h2 c (List.mem_cons_of_mem x hc)⟩

theorem gmatch_anyOne (s : List Char) :
    gmatch s [.anyOne] = true ↔ ∃ c, s = [c] ∧ c ≠ '\n' := by
  cases s with
  | nil => simp [gmatch]
  | cons x xs =>
    cases xs with
    | nil => simp [gmatch]
    | cons y ys =>
      rw [show gmatch (x :: y :: ys) [GTok.anyOne] =
          ((x != '\n') && false) from rfl]
      simp

theorem reFullMatch_plusNotSlash (s : List Char) :
    reFullMatch s [.plusNotSlash] = true ↔ s ≠ [] ∧ ∀ c ∈ s, c ≠ '/' := by
  unfold reFullMatch
  rw [Bool.or_eq_true, Bool.and_eq_true]
  simp only [gmatch_plusNotSlash]
  constructor
  · rintro (h | ⟨hlast, hne, hall⟩)
    · exact h
    · rcases List.eq_nil_or_concat' s with rfl | ⟨t, a, rfl⟩
      · simp at hlast
      · have ha : a = '\n' := by
          rw [List.getLast?_concat] at hlast
          simpa using hlast
        refine ⟨by simp, ?_⟩
        intro c hc
        rcases List.mem_append.mp hc with hc | hc
        · exact hall c (by simpa [List.dropLast_concat] using hc)
        · have hca : c = a := by simpa using hc
          rw [hca, ha]
          decide
  · intro h
    exact Or.inl h

theorem reFullMatch_plusAny (s : List Char) :
    reFullMatch s [.plusAny] = true ↔
      (s ≠ [] ∧ ∀ c ∈ s, c ≠ '\n') ∨
      (∃ t, s = t ++ ['\n'] ∧ t ≠ [] ∧ ∀ c ∈ t, c ≠ '\n') := by
  unfold reFullMatch
  rw [Bool.or_eq_true, Bool.and_eq_true]
  simp only [gmatch_plusAny]
  constructor
  · rintro (h | ⟨hlast, hne, hall⟩)
    · exact Or.inl h
    · rcases List.eq_nil_or_concat' s with rfl | ⟨t, a, rfl⟩
      · simp at hlast
      · have ha : a = '\n' := by
          rw [List.getLast?_concat] at hlast
          simpa using hlast
        rw [List.dropLast_concat] at hne hall
        exact Or.inr ⟨t, by rw [ha], hne, hall⟩
  · rintro (h | ⟨t, rfl, hne, hall⟩)
    · exact Or.inl h
    · right
      refine ⟨?_, ?_, ?_⟩
      · rw [List.getLast?_concat]
        simp
      · rw [List.dropLast_concat]
        exact hne
      · rw [List.dropLast_concat]
        exact hall

theorem reFullMatch_anyOne (s : List Char) :
    reFullMatch s [.anyOne] = true ↔
      ∃ c, c ≠ '\n' ∧ (s = [c] ∨ s = [c, '\n']) := by
  unfold reFullMatch
  rw [Bool.or_eq_true, Bool.and_eq_true]
  simp only [gmatch_anyOne]
  constructor
  · rintro (⟨c, rfl, hc⟩ | ⟨hlast, c, hdrop, hc⟩)
    · exact ⟨c, hc, Or.inl rfl⟩
    · rcases List.eq_nil_or_concat' s with rfl | ⟨t, a, rfl⟩
      · simp at hlast
      · have ha : a = '\n' := by
          rw [List.getLast?_concat] at hlast
          simpa using hlast
        rw [List.dropLast_concat] at hdrop
        exact ⟨c, hc, Or.inr (by rw [hdrop, ha]; rfl)⟩
  · rintro ⟨c, hc, rfl | rfl⟩
    · exact Or.inl ⟨c, rfl, hc⟩
    · right
      refine ⟨rfl, c, ?_, hc⟩
      rfl

/-- C6 counterexample.  The claim says (i) every pattern whose bucket
segment contains a wildcard raises, and (ii) `**`/`?` match *any*
characters.  (i) The code checks only for `*`: a `?` in the bucket
segment is accepted (`glob('b?/x*')` goes on to walk the literal
bucket `b?`, returning a listing instead of raising).  (ii) The `.`
regex class excludes newline, so `glob('b/**')` fails to match an
object named `b/\n`: `.+` needs at least one non-newline character
even with `$`'s tolerance of one trailing newline, while the claim
says `**` covers any characters. -/
theorem claim6_glob_counterexample :
    globModel [] (cs "b?/x*") = .ok [] ∧
    globModel [⟨cs "b/" ++ ['\n'], false⟩] (cs "b/**") = .ok [] := by
  exact ⟨rfl, rfl⟩

/-- C6 amended.  `glob` translates the pattern into a path-anchored
regular expression with `**` matching one or more characters other
than newline (the slash included), `*` matching one or more
non-slash characters, and `?` matching any single character other
than newline — where, as re's `$` does, the anchored match also
accepts one trailing newline in the object name after the matched
part; it raises exactly when the bucket segment contains a `*` (a `?`
in the bucket is not rejected); and it returns the walked names under
the non-wildcard root prefix that match the pattern — on the example
listing, `glob('bucket/a/*.txt')` yields exactly `bucket/a/b.txt`,
`glob('bucket/a/**')` yields all three objects, and `glob('b/**')`
over an object `b/x\n` does return it (the trailing-newline
tolerance). -/
theorem claim6_glob_amended :
    (∀ (files : List LEntry) (path0 : List Char),
      '*' ∈ (splitPath (rstripSlash path0)).1 →
      globModel files path0 = .error .badRequest) ∧
    globToks (cs "**") = [.plusAny] ∧
    (∀ s, reFullMatch s [.plusAny] = true ↔
      (s ≠ [] ∧ ∀ c ∈ s, c ≠ '\n') ∨
      (∃ t, s = t ++ ['\n'] ∧ t ≠ [] ∧ ∀ c ∈ t, c ≠ '\n')) ∧
    globToks (cs "*") = [.plusNotSlash] ∧
    (∀ s, reFullMatch s [.plusNotSlash] = true ↔
      s ≠ [] ∧ ∀ c ∈ s, c ≠ '/') ∧
    globToks (cs "?") = [.anyOne] ∧
    (∀ s, reFullMatch s [.anyOne] = true ↔
      ∃ c, c ≠ '\n' ∧ (s = [c] ∨ s = [c, '\n'])) ∧
    globModel demoFiles (cs "bucket/a/*.txt") = .ok [cs "bucket/a/b.txt"] ∧
    globModel demoFiles (cs "bucket/a/**") =
      .ok [cs "bucket/a/b.txt", cs "bucket/a/c/d.txt",
        cs "bucket/a/c/e.txt"] ∧
    globModel [⟨cs "b/x" ++ ['\n'], false⟩] (cs "b/**") =
      .ok [cs "b/x" ++ ['\n']] := by
  refine ⟨?_, rfl, reFullMatch_plusAny, rfl, reFullMatch_plusNotSlash, rfl,
    reFullMatch_anyOne, rfl, rfl, rfl⟩
  intro files path0 h
  unfold globModel
  dsimp only
  rw [if_pos h]

theorem claim6_glob_amended_witness :
    globModel [] (cs "bu*cket/a") = .error .badRequest ∧
    (reFullMatch (cs "x/y") [.plusAny] = true ↔
      (cs "x/y" ≠ [] ∧ ∀ c ∈ cs "x/y", c ≠ '\n') ∨
      (∃ t, cs "x/y" = t ++ ['\n'] ∧ t ≠ [] ∧ ∀ c ∈ t, c ≠ '\n')) := by
  constructor
  · exact claim6_glob_amended.1 [] (cs "bu*cket/a") (by decide)
  · exact claim6_glob_amended.2.2.1 (cs "x/y")
